import Mathlib

/-!
A model of the poisson_scheduler crate (src/lib.rs).

Instants and durations are measured in nanoseconds and modelled as rationals.
The run-time environment is modelled by two streams: clock k is the value
returned by the k-th call to Instant.now during the operation under
consideration (monotone, since Rust's Instant is monotonic), and gaps k is
the k-th value returned by the exponential sampler Exp.sample (the sampler
output is a non-negative float, modelled as a rational).  Loops carry
explicit fuel; a result of none means the fuel ran out before the loop
exited (the poll or run loop has not yet terminated), never a failure of
the modelled code.  Panics are modelled as Except.error values.
-/

namespace PoissonSched

/-- Saturating difference of instants, Instant.duration_since applied as
next.duration_since(current): Rust saturates the result to the zero
Duration when current is later than next. -/
def durationSince (next current : ℚ) : ℚ := max (next - current) 0

/-- The cast inter_arrival_time as u64 applied to the sampled f64 gap
(src/lib.rs line 69): truncation toward zero, clamped below by 0 and above
by the largest u64 value, as Rust float-to-integer casts saturate. -/
def asU64 (x : ℚ) : ℕ := (min (max ⌊x⌋ 0) (2 ^ 64 - 1)).toNat

/-- The exponential distribution value Exp of rand_distr, identified by its
rate parameter lambda (events per nanosecond). -/
structure ExpDist where
  lambda : ℚ
  deriving DecidableEq, Repr

/-- Modelled from the spec: the Exp constructor of rand_distr is external to
the repository (not under src/).  Per spec section 4.1, building the sampler
fails when the intensity lambda is zero or negative and succeeds otherwise,
storing exactly the parameter lambda. -/
def ExpDist.new (lambda : ℚ) : Except String ExpDist :=
  if 0 < lambda then Except.ok ⟨lambda⟩
  else Except.error "lambda is not strictly positive"

/-- The scheduler state (src/lib.rs lines 32-35): the exponential sampler
together with the state of the thread-local RNG, modelled as the position
reached in the stream of sampler outputs. -/
structure PoissonScheduler where
  exp : ExpDist
  rngIdx : ℕ
  deriving DecidableEq, Repr

/-- PoissonScheduler.new (src/lib.rs lines 46-54): panics (modelled as
Except.error) when rate exceeds 1e9; otherwise builds the sampler with
lambda = rate / 1e9, panicking with the expect message when the sampler
cannot be created; a fresh thread-local RNG starts at position 0 of the
sample stream. -/
def PoissonScheduler.new (rate : ℚ) : Except String PoissonScheduler :=
  if 10 ^ 9 < rate then
    Except.error "Rate should not exceed 1e9 operations per second"
  else
    match ExpDist.new (rate / 10 ^ 9) with
    | Except.error _ => Except.error "Exponential function could not be created."
    | Except.ok e => Except.ok ⟨e, 0⟩

/-- PoissonScheduler.wait_until (src/lib.rs lines 76-84): active poll.  The
first clock read at index i is the initial current = Instant.now(); while
the saturating remaining span is positive another reading is taken.  The
returned value is the index of the first clock reading not consumed by this
call.  Fuel bounds the number of extra polls; none means the poll loop has
not yet exited within the given fuel. -/
def waitUntil (next : ℚ) (clock : ℕ → ℚ) : ℕ → ℕ → Option ℕ
  | i, 0 =>
    if 0 < durationSince next (clock i) then none else some (i + 1)
  | i, fuel + 1 =>
    if 0 < durationSince next (clock i) then waitUntil next clock (i + 1) fuel
    else some (i + 1)

/-- The loop of PoissonScheduler.run (src/lib.rs lines 67-73) for a pure
action whose only observable behaviour is receiving the timestamps: while
the reading clock i is before endTime, one gap is sampled at stream
position gi, next_time is the subsequent reading clock (i+1) plus the gap
truncated to whole nanoseconds, wait_until polls from reading i+2 onward,
and the action receives next_time; the bound is re-checked only after the
action returns, at the first reading not consumed by the wait.  Returns the
timestamps passed to the action, the final sampler-stream position and the
index of the first unconsumed clock reading. -/
def runLoop (gaps clock : ℕ → ℚ) (endTime : ℚ) (wfuel : ℕ) :
    ℕ → ℕ → ℕ → Option (List ℚ × ℕ × ℕ)
  | 0, gi, i =>
    if clock i < endTime then none else some ([], gi, i + 1)
  | fuel + 1, gi, i =>
    if clock i < endTime then
      match waitUntil (clock (i + 1) + (asU64 (gaps gi) : ℚ)) clock (i + 2) wfuel with
      | none => none
      | some j =>
        match runLoop gaps clock endTime wfuel fuel (gi + 1) j with
        | none => none
        | some (ts, gf, jf) =>
          some ((clock (i + 1) + (asU64 (gaps gi) : ℚ)) :: ts, gf, jf)
    else some ([], gi, i + 1)

/-- The loop of PoissonScheduler.run with an explicit, possibly panicking
caller-supplied action: identical to runLoop except that the action is
invoked at each timestamp and a panic of the action (an Except.error value)
ends the loop immediately and is propagated unchanged. -/
def runLoopA (act : ℚ → Except String Unit) (gaps clock : ℕ → ℚ) (endTime : ℚ)
    (wfuel : ℕ) : ℕ → ℕ → ℕ → Option (Except String (List ℚ × ℕ × ℕ))
  | 0, gi, i =>
    if clock i < endTime then none else some (Except.ok ([], gi, i + 1))
  | fuel + 1, gi, i =>
    if clock i < endTime then
      match waitUntil (clock (i + 1) + (asU64 (gaps gi) : ℚ)) clock (i + 2) wfuel with
      | none => none
      | some j =>
        match act (clock (i + 1) + (asU64 (gaps gi) : ℚ)) with
        | Except.error e => some (Except.error e)
        | Except.ok _ =>
          match runLoopA act gaps clock endTime wfuel fuel (gi + 1) j with
          | none => none
          | some (Except.error e) => some (Except.error e)
          | some (Except.ok (ts, gf, jf)) =>
            some (Except.ok ((clock (i + 1) + (asU64 (gaps gi) : ℚ)) :: ts, gf, jf))
    else some (Except.ok ([], gi, i + 1))

/-- PoissonScheduler.run (src/lib.rs lines 64-74): end_time is the clock
reading at index i (the instant run is called) plus runtime, computed once;
the loop then starts at reading i+1.  The returned scheduler keeps the
sampler and carries the advanced RNG position. -/
def PoissonScheduler.run (s : PoissonScheduler) (gaps clock : ℕ → ℚ)
    (runtime : ℚ) (i wfuel fuel : ℕ) : Option (List ℚ × PoissonScheduler × ℕ) :=
  match runLoop gaps clock (clock i + runtime) wfuel fuel s.rngIdx (i + 1) with
  | none => none
  | some (ts, gf, jf) => some (ts, ⟨s.exp, gf⟩, jf)

/-- A concrete clock trace: time stands still at 0 for the first seven
readings, then jumps to 100 ns.  Rust's Instant is only guaranteed to be
nondecreasing, so repeated equal readings are a legitimate behaviour. -/
def cexClock : ℕ → ℚ := fun k => if k ≤ 6 then 0 else 100

/-- A concrete sampler trace: every exponential sample is 0.5 ns, a typical
draw at rate 1e9 events per second (mean gap 1 ns). -/
def cexGaps : ℕ → ℚ := fun _ => 1 / 2

/-- A concrete strictly advancing clock trace: one nanosecond per reading. -/
def idClock : ℕ → ℚ := fun k => (k : ℚ)

/-- An action that never panics and has no observable effect. -/
def pureAct : ℚ → Except String Unit := fun _ => Except.ok ()

/-- A saturating span that is not positive means the target is not ahead of
the current reading. -/
lemma durationSince_not_pos {next c : ℚ} (h : ¬ 0 < durationSince next c) :
    next ≤ c := by
  have h0 : durationSince next c ≤ 0 := not_lt.1 h
  simp only [durationSince] at h0
  exact sub_nonpos.1 (max_le_iff.1 h0).1

/-- A target at or before the current reading saturates to a zero span. -/
lemma durationSince_eq_zero {next c : ℚ} (h : next ≤ c) :
    durationSince next c = 0 := by
  simp only [durationSince]
  exact max_eq_right (sub_nonpos.2 h)

/-- When the poll loop of wait_until exits, at least one reading was
consumed and the last reading taken is at or past the target. -/
lemma waitUntil_some {next : ℚ} {clock : ℕ → ℚ} :
    ∀ fuel i j, waitUntil next clock i fuel = some j →
      i < j ∧ next ≤ clock (j - 1) := by
  intro fuel
  induction fuel with
  | zero =>
    intro i j h
    simp only [waitUntil] at h
    split at h
    · simp at h
    · rename_i hc
      obtain rfl : i + 1 = j := Option.some.inj h
      exact ⟨Nat.lt_succ_self i, by simpa using durationSince_not_pos hc⟩
  | succ fuel ih =>
    intro i j h
    simp only [waitUntil] at h
    split at h
    · obtain ⟨h1, h2⟩ := ih (i + 1) j h
      exact ⟨Nat.lt_of_le_of_lt (Nat.le_succ i) h1, h2⟩
    · rename_i hc
      obtain rfl : i + 1 = j := Option.some.inj h
      exact ⟨Nat.lt_succ_self i, by simpa using durationSince_not_pos hc⟩

/-- The poll loop of wait_until exits once a reading reaches the target:
fuel for the readings up to index i + d suffices when the reading there has
reached the target. -/
lemma waitUntil_eventually {next : ℚ} {clock : ℕ → ℚ} :
    ∀ d i, next ≤ clock (i + d) → ∃ j, waitUntil next clock i d = some j := by
  intro d
  induction d with
  | zero =>
    intro i h
    rw [Nat.add_zero] at h
    exact ⟨i + 1, by simp [waitUntil, durationSince_eq_zero h]⟩
  | succ d ih =>
    intro i h
    by_cases hc : 0 < durationSince next (clock i)
    · have h' : next ≤ clock (i + 1 + d) := by
        have e : i + 1 + d = i + (d + 1) := by omega
        rw [e]; exact h
      obtain ⟨j, hj⟩ := ih (i + 1) h'
      refine ⟨j, ?_⟩
      simp only [waitUntil]
      rw [if_pos hc]
      exact hj
    · refine ⟨i + 1, ?_⟩
      simp only [waitUntil]
      rw [if_neg hc]

/-- Structural facts about a finished run loop: the sampler stream advances
by exactly one draw per action invocation, at least one clock reading is
consumed, and the final bound check compared the original end time with a
reading that had reached it. -/
lemma runLoop_struct {gaps clock : ℕ → ℚ} {endT : ℚ} {wfuel : ℕ} :
    ∀ fuel gi i ts gf jf,
      runLoop gaps clock endT wfuel fuel gi i = some (ts, gf, jf) →
      gf = gi + ts.length ∧ i < jf ∧ endT ≤ clock (jf - 1) := by
  intro fuel
  induction fuel with
  | zero =>
    intro gi i ts gf jf h
    simp only [runLoop] at h
    split at h
    · simp at h
    · rename_i hc
      rw [Option.some.injEq, Prod.mk.injEq, Prod.mk.injEq] at h
      obtain ⟨rfl, rfl, rfl⟩ := h
      exact ⟨by simp, Nat.lt_succ_self i, by simpa using not_lt.1 hc⟩
  | succ fuel ih =>
    intro gi i ts gf jf h
    simp only [runLoop] at h
    split at h
    · split at h
      · simp at h
      · rename_i j hw
        split at h
        · simp at h
        · rename_i ts' gf' jf' hr
          rw [Option.some.injEq, Prod.mk.injEq, Prod.mk.injEq] at h
          obtain ⟨rfl, rfl, rfl⟩ := h
          obtain ⟨h1, h2, h3⟩ := ih (gi + 1) j ts' gf' jf' hr
          obtain ⟨hw1, hw2⟩ := waitUntil_some wfuel (i + 2) j hw
          refine ⟨?_, by omega, h3⟩
          rw [h1, List.length_cons]
          omega
    · rename_i hc
      rw [Option.some.injEq, Prod.mk.injEq, Prod.mk.injEq] at h
      obtain ⟨rfl, rfl, rfl⟩ := h
      exact ⟨by simp, Nat.lt_succ_self i, by simpa using not_lt.1 hc⟩

/-- With a monotone clock, every timestamp handed to the action is at or
after the reading at which the loop started, and the timestamps are
nondecreasing along the run. -/
lemma runLoop_ts {gaps clock : ℕ → ℚ} (hm : Monotone clock) {endT : ℚ}
    {wfuel : ℕ} :
    ∀ fuel gi i ts gf jf,
      runLoop gaps clock endT wfuel fuel gi i = some (ts, gf, jf) →
      (∀ t ∈ ts, clock i ≤ t) ∧ List.Chain' (fun a b => a ≤ b) ts := by
  intro fuel
  induction fuel with
  | zero =>
    intro gi i ts gf jf h
    simp only [runLoop] at h
    split at h
    · simp at h
    · rw [Option.some.injEq, Prod.mk.injEq, Prod.mk.injEq] at h
      obtain ⟨rfl, rfl, rfl⟩ := h
      simp
  | succ fuel ih =>
    intro gi i ts gf jf h
    simp only [runLoop] at h
    split at h
    · split at h
      · simp at h
      · rename_i j hw
        split at h
        · simp at h
        · rename_i ts' gf' jf' hr
          rw [Option.some.injEq, Prod.mk.injEq, Prod.mk.injEq] at h
          obtain ⟨rfl, rfl, rfl⟩ := h
          obtain ⟨ihmem, ihchain⟩ := ih (gi + 1) j ts' gf' jf' hr
          obtain ⟨hw1, hw2⟩ := waitUntil_some wfuel (i + 2) j hw
          have hij : i ≤ j := by omega
          have hnext : clock i ≤ clock (i + 1) + (asU64 (gaps gi) : ℚ) :=
            le_trans (hm (Nat.le_succ i))
              (le_add_of_nonneg_right (Nat.cast_nonneg _))
          constructor
          · intro t ht
            rcases List.mem_cons.1 ht with rfl | ht'
            · exact hnext
            · exact le_trans (hm hij) (ihmem t ht')
          · refine List.chain'_cons'.2 ⟨?_, ihchain⟩
            intro y hy
            have hy' : y ∈ ts' := List.mem_of_mem_head? hy
            have hjy : clock j ≤ y := ihmem y hy'
            have hj1 : clock (j - 1) ≤ clock j := hm (Nat.sub_le j 1)
            exact le_trans hw2 (le_trans hj1 hjy)
    · rw [Option.some.injEq, Prod.mk.injEq, Prod.mk.injEq] at h
      obtain ⟨rfl, rfl, rfl⟩ := h
      simp

/-- An error coming out of the run loop can only originate in the
caller-supplied action. -/
lemma runLoopA_error {act : ℚ → Except String Unit} {gaps clock : ℕ → ℚ}
    {endT : ℚ} {wfuel : ℕ} :
    ∀ fuel gi i e,
      runLoopA act gaps clock endT wfuel fuel gi i = some (Except.error e) →
      ∃ t, act t = Except.error e := by
  intro fuel
  induction fuel with
  | zero =>
    intro gi i e h
    simp only [runLoopA] at h
    split at h <;> simp at h
  | succ fuel ih =>
    intro gi i e h
    simp only [runLoopA] at h
    split at h
    · split at h
      · simp at h
      · rename_i j hw
        split at h
        · rename_i e' ha
          obtain rfl : e' = e := by simpa using h
          exact ⟨_, ha⟩
        · split at h
          · simp at h
          · rename_i e' hr
            obtain rfl : e' = e := by simpa using h
            exact ih (gi + 1) j _ hr
          · simp at h
    · simp at h

/-- For an action that never panics, the run loop with an explicit action
coincides with the pure run loop. -/
lemma runLoopA_pure {act : ℚ → Except String Unit}
    (ha : ∀ t, act t = Except.ok ()) {gaps clock : ℕ → ℚ} {endT : ℚ}
    {wfuel : ℕ} :
    ∀ fuel gi i,
      runLoopA act gaps clock endT wfuel fuel gi i
        = Option.map Except.ok (runLoop gaps clock endT wfuel fuel gi i) := by
  intro fuel
  induction fuel with
  | zero =>
    intro gi i
    simp only [runLoopA, runLoop]
    split <;> simp
  | succ fuel ih =>
    intro gi i
    simp only [runLoopA, runLoop]
    split
    · cases hw : waitUntil (clock (i + 1) + (asU64 (gaps gi) : ℚ)) clock (i + 2) wfuel with
      | none => simp
      | some j =>
        simp only [ha]
        rw [ih (gi + 1) j]
        cases hr : runLoop gaps clock endT wfuel fuel (gi + 1) j with
        | none => simp
        | some r =>
          obtain ⟨ts, gf, jf⟩ := r
          simp
    · simp

/-- Unfolding of a successful run call: the loop ran against the end time
clock i + runtime computed from the reading at invocation, starting at the
following reading, and the returned scheduler keeps the sampler field. -/
lemma run_some {s : PoissonScheduler} {gaps clock : ℕ → ℚ} {runtime : ℚ}
    {i wfuel fuel : ℕ} {ts : List ℚ} {s' : PoissonScheduler} {jf : ℕ}
    (h : PoissonScheduler.run s gaps clock runtime i wfuel fuel
      = some (ts, s', jf)) :
    runLoop gaps clock (clock i + runtime) wfuel fuel s.rngIdx (i + 1)
      = some (ts, s'.rngIdx, jf) ∧ s'.exp = s.exp := by
  unfold PoissonScheduler.run at h
  cases hr : runLoop gaps clock (clock i + runtime) wfuel fuel s.rngIdx (i + 1) with
  | none => rw [hr] at h; simp at h
  | some r =>
    obtain ⟨ts', gf, jf'⟩ := r
    rw [hr] at h
    simp only [Option.some.injEq, Prod.mk.injEq] at h
    obtain ⟨rfl, h2, rfl⟩ := h
    subst h2
    exact ⟨rfl, rfl⟩

/-- The stalling-then-jumping clock trace is monotone. -/
lemma cexClock_mono : Monotone cexClock := by
  intro a b hab
  simp only [cexClock]
  split
  · split
    · norm_num
    · norm_num
  · split
    · exfalso; omega
    · norm_num

/-- The one-nanosecond-per-reading clock trace is monotone. -/
lemma idClock_mono : Monotone idClock := by
  intro a b hab
  simp only [idClock]
  exact_mod_cast hab

/-- The derived intensity is positive exactly when the rate is. -/
lemma lam_pos_iff (rate : ℚ) : 0 < rate / 10 ^ 9 ↔ 0 < rate := by
  constructor
  · intro h
    rcases div_pos_iff.1 h with ⟨h1, _⟩ | ⟨_, h2⟩
    · exact h1
    · norm_num at h2
  · intro h
    exact div_pos h (by norm_num)

/-- Closed form of construction: the panic on rates above 1e9, then the
sampler validity check on the derived intensity. -/
lemma new_eq (rate : ℚ) :
    PoissonScheduler.new rate =
      if 10 ^ 9 < rate then
        Except.error "Rate should not exceed 1e9 operations per second"
      else if 0 < rate / 10 ^ 9 then Except.ok ⟨⟨rate / 10 ^ 9⟩, 0⟩
      else Except.error "Exponential function could not be created." := by
  unfold PoissonScheduler.new ExpDist.new
  by_cases h9 : 10 ^ 9 < rate
  · simp only [if_pos h9]
  · simp only [if_neg h9]
    by_cases hl : 0 < rate / 10 ^ 9
    · simp only [if_pos hl]
    · simp only [if_neg hl]

/-- In the representable range, the u64 cast of a nonnegative value is its
integer part: it is at most the value and the value is below it plus one. -/
lemma asU64_floor {g : ℚ} (h0 : 0 ≤ g) (h1 : g ≤ 2 ^ 64 - 1) :
    (asU64 g : ℚ) ≤ g ∧ g < (asU64 g : ℚ) + 1 := by
  have hf0 : (0 : ℤ) ≤ ⌊g⌋ := Int.floor_nonneg.2 h0
  have hfle : ⌊g⌋ ≤ (2 ^ 64 - 1 : ℤ) := by
    have h2 : (⌊g⌋ : ℚ) ≤ (2 : ℚ) ^ 64 - 1 := le_trans (Int.floor_le g) h1
    exact_mod_cast h2
  have hval : (asU64 g : ℚ) = (⌊g⌋ : ℚ) := by
    simp only [asU64, max_eq_left hf0, min_eq_left hfle]
    exact_mod_cast congrArg (fun z : ℤ => (z : ℚ)) (Int.toNat_of_nonneg hf0)
  rw [hval]
  exact ⟨Int.floor_le g, Int.lt_floor_add_one g⟩

/-- C1: construction fails fatally exactly when the rate is out of range: a
panic with the 1e9 message for every rate above 1e9, a panic for every rate
at or below zero, and a usable scheduler for every rate in the interval
from 0 exclusive to 1e9 inclusive, including exactly 1e9. -/
theorem C1_construction_fatal_iff (rate : ℚ) :
    ((∃ s, PoissonScheduler.new rate = Except.ok s) ↔ 0 < rate ∧ rate ≤ 10 ^ 9) ∧
    (10 ^ 9 < rate →
      PoissonScheduler.new rate
        = Except.error "Rate should not exceed 1e9 operations per second") ∧
    (rate ≤ 0 →
      PoissonScheduler.new rate
        = Except.error "Exponential function could not be created.") ∧
    (∃ s, PoissonScheduler.new ((10 : ℚ) ^ 9) = Except.ok s) := by
  refine ⟨?_, ?_, ?_,
    ⟨⟨⟨(10 : ℚ) ^ 9 / 10 ^ 9⟩, 0⟩,
      by rw [new_eq, if_neg (by norm_num), if_pos (by norm_num)]⟩⟩
  · rw [new_eq]
    by_cases h9 : 10 ^ 9 < rate
    · rw [if_pos h9]
      constructor
      · rintro ⟨s, hs⟩
        simp at hs
      · rintro ⟨_, h2⟩
        exact absurd h9 (not_lt.2 h2)
    · rw [if_neg h9]
      by_cases hp : 0 < rate
      · rw [if_pos ((lam_pos_iff rate).2 hp)]
        exact ⟨fun _ => ⟨hp, not_lt.1 h9⟩, fun _ => ⟨_, rfl⟩⟩
      · rw [if_neg (fun hc => hp ((lam_pos_iff rate).1 hc))]
        constructor
        · rintro ⟨s, hs⟩
          simp at hs
        · rintro ⟨h1, _⟩
          exact absurd h1 hp
  · intro h9
    rw [new_eq, if_pos h9]
  · intro h0
    rw [new_eq, if_neg (not_lt.2 (le_trans h0 (by norm_num))),
      if_neg (fun hc => absurd ((lam_pos_iff rate).1 hc) (not_lt.2 h0))]

/-- Witness for C1 at rate 1e10: construction panics with the message
naming the 1e9 limit. -/
theorem C1_construction_fatal_iff_witness :
    PoissonScheduler.new ((10 : ℚ) ^ 10)
      = Except.error "Rate should not exceed 1e9 operations per second" :=
  (C1_construction_fatal_iff ((10 : ℚ) ^ 10)).2.1 (by norm_num)

/-- C2 as stated is false on the code: with the monotone clock trace
cexClock (Rust's Instant may repeat readings) and the nonnegative 0.5 ns
samples of cexGaps, a scheduler built by new at rate 1e9 passes the
timestamp 0 to the action twice within one run, because the gap truncates
to zero whole nanoseconds, so the timestamps are not strictly increasing. -/
theorem C2_strict_increase_counterexample :
    PoissonScheduler.new ((10 : ℚ) ^ 9) = Except.ok ⟨⟨1⟩, 0⟩ ∧
    Monotone cexClock ∧ (∀ k, 0 ≤ cexGaps k) ∧
    PoissonScheduler.run ⟨⟨1⟩, 0⟩ cexGaps cexClock 10 0 5 5
      = some ([0, 0], ⟨⟨1⟩, 2⟩, 8) ∧
    ¬ List.Chain' (fun a b : ℚ => a < b) [0, 0] := by
  refine ⟨?_, cexClock_mono, fun k => by norm_num [cexGaps],
    by norm_num [PoissonScheduler.run, runLoop, waitUntil, cexClock, cexGaps,
      asU64, durationSince], by simp [List.chain'_cons]⟩
  have h1 : ((10 : ℚ) ^ 9) / 10 ^ 9 = 1 := by norm_num
  rw [new_eq, if_neg (by norm_num), if_pos (by norm_num), h1]

/-- C2 amended: for every successfully constructed scheduler, over a
monotone clock the timestamps passed to the action during a run call are
nondecreasing across consecutive invocations (strict increase can fail when
a sampled gap truncates to zero nanoseconds while the clock reading does
not advance), and every timestamp, in particular the first, is at or after
the instant run was called. -/
theorem C2_timestamps_monotone (s : PoissonScheduler) (gaps clock : ℕ → ℚ)
    (runtime : ℚ) (i wfuel fuel : ℕ) (ts : List ℚ) (s' : PoissonScheduler)
    (jf : ℕ) (hm : Monotone clock)
    (h : PoissonScheduler.run s gaps clock runtime i wfuel fuel
      = some (ts, s', jf)) :
    List.Chain' (fun a b => a ≤ b) ts ∧ ∀ t ∈ ts, clock i ≤ t := by
  obtain ⟨hr, _⟩ := run_some h
  obtain ⟨hmem, hchain⟩ := runLoop_ts hm fuel s.rngIdx (i + 1) ts s'.rngIdx jf hr
  exact ⟨hchain, fun t ht => le_trans (hm (Nat.le_succ i)) (hmem t ht)⟩

/-- Witness for the amended C2 on the concrete stalling-clock run. -/
theorem C2_timestamps_monotone_witness :
    List.Chain' (fun a b : ℚ => a ≤ b) [0, 0] ∧
    ∀ t ∈ ([0, 0] : List ℚ), cexClock 0 ≤ t :=
  C2_timestamps_monotone ⟨⟨1⟩, 0⟩ cexGaps cexClock 10 0 5 5 [0, 0] ⟨⟨1⟩, 2⟩ 8
    cexClock_mono (by norm_num [PoissonScheduler.run, runLoop, waitUntil, cexClock, cexGaps,
      asU64, durationSince])

/-- C3: a loop iteration whose bound check passed draws exactly one sample,
the next one of the stream, forms next_time as the following now-reading
plus the gap truncated toward zero to whole nanoseconds, blocks through
wait_until starting at the subsequent reading, passes exactly next_time to
the action, and re-evaluates the runtime bound only in the continuation
entered after the action, at the first reading the wait did not consume;
moreover the u64 conversion is truncation toward zero on the representable
range. -/
theorem C3_iteration_order (gaps clock : ℕ → ℚ) (endT : ℚ)
    (wfuel fuel gi i : ℕ) (hc : clock i < endT) :
    (runLoop gaps clock endT wfuel (fuel + 1) gi i =
      match waitUntil (clock (i + 1) + (asU64 (gaps gi) : ℚ)) clock (i + 2) wfuel with
      | none => none
      | some j =>
        match runLoop gaps clock endT wfuel fuel (gi + 1) j with
        | none => none
        | some (ts, gf, jf) =>
          some ((clock (i + 1) + (asU64 (gaps gi) : ℚ)) :: ts, gf, jf)) ∧
    ∀ g : ℚ, 0 ≤ g → g ≤ 2 ^ 64 - 1 →
      (asU64 g : ℚ) ≤ g ∧ g < (asU64 g : ℚ) + 1 :=
  ⟨by simp only [runLoop, if_pos hc], fun g h0 h1 => asU64_floor h0 h1⟩

/-- Witness for C3: truncation of the concrete 0.5 ns sample, with the
bound hypothesis discharged on the concrete clock. -/
theorem C3_iteration_order_witness :
    (asU64 (1 / 2) : ℚ) ≤ 1 / 2 ∧ (1 / 2 : ℚ) < (asU64 (1 / 2) : ℚ) + 1 :=
  (C3_iteration_order cexGaps cexClock 10 1 1 0 1 (by norm_num [cexClock])).2 (1 / 2)
    (by norm_num) (by norm_num)

/-- C4: when wait_until returns, wall-clock time has reached the target:
the poll consumed at least one reading and the last reading taken is at or
past the target instant. -/
theorem C4_wait_until_reaches_target (next : ℚ) (clock : ℕ → ℚ)
    (i fuel j : ℕ) (h : waitUntil next clock i fuel = some j) :
    i < j ∧ next ≤ clock (j - 1) :=
  waitUntil_some fuel i j h

/-- Witness for C4 on the advancing clock: waiting for instant 5 from
reading 0 returns after reading 5. -/
theorem C4_wait_until_reaches_target_witness :
    0 < 6 ∧ (5 : ℚ) ≤ idClock (6 - 1) :=
  C4_wait_until_reaches_target 5 idClock 0 10 6
    (by norm_num [waitUntil, idClock, durationSince])

/-- C5: run computes end_time once, as the reading at invocation plus
runtime; it returns only after a bound check read a clock value at or past
that original end time, and every interarrival sample drawn in a completed
run led to exactly one action invocation: the sampler-stream position
advanced by exactly the number of timestamps delivered. -/
theorem C5_end_time_once_and_complete (s : PoissonScheduler)
    (gaps clock : ℕ → ℚ) (runtime : ℚ) (i wfuel fuel : ℕ) (ts : List ℚ)
    (s' : PoissonScheduler) (jf : ℕ)
    (h : PoissonScheduler.run s gaps clock runtime i wfuel fuel
      = some (ts, s', jf)) :
    clock i + runtime ≤ clock (jf - 1) ∧ s'.rngIdx = s.rngIdx + ts.length := by
  obtain ⟨hr, _⟩ := run_some h
  obtain ⟨h1, h2, h3⟩ := runLoop_struct fuel s.rngIdx (i + 1) ts s'.rngIdx jf hr
  exact ⟨h3, h1⟩

/-- Witness for C5 on the concrete stalling-clock run. -/
theorem C5_end_time_once_and_complete_witness :
    cexClock 0 + 10 ≤ cexClock (8 - 1) ∧ 2 = 0 + ([0, 0] : List ℚ).length :=
  C5_end_time_once_and_complete ⟨⟨1⟩, 0⟩ cexGaps cexClock 10 0 5 5 [0, 0]
    ⟨⟨1⟩, 2⟩ 8 (by norm_num [PoissonScheduler.run, runLoop, waitUntil, cexClock, cexGaps,
      asU64, durationSince])

/-- C6: a run with zero duration returns at once over a monotone clock:
the very first bound check fails, the action is invoked zero times, the
scheduler is unchanged, and this holds for every fuel bound, so the return
does not depend on the fuel cut-off (no indefinite block). -/
theorem C6_zero_runtime_returns (s : PoissonScheduler) (gaps clock : ℕ → ℚ)
    (i wfuel fuel : ℕ) (hm : Monotone clock) :
    PoissonScheduler.run s gaps clock 0 i wfuel fuel = some ([], s, i + 2) := by
  have hnc : ¬ clock (i + 1) < clock i := not_lt.2 (hm (Nat.le_succ i))
  cases fuel with
  | zero => simp [PoissonScheduler.run, runLoop, hnc]
  | succ fuel => simp [PoissonScheduler.run, runLoop, hnc]

/-- Witness for C6 on the advancing clock. -/
theorem C6_zero_runtime_returns_witness :
    PoissonScheduler.run ⟨⟨1⟩, 0⟩ cexGaps idClock 0 0 3 3
      = some ([], ⟨⟨1⟩, 0⟩, 2) :=
  C6_zero_runtime_returns ⟨⟨1⟩, 0⟩ cexGaps idClock 0 3 3 idClock_mono

/-- C7: once construction has succeeded, run and wait_until are infallible:
an error result of the run loop can only be one produced by the
caller-supplied action, propagated unchanged and never caught or
suppressed; for an action that never panics the loop yields a plain
non-error result; and the wait_until poll returns for any target instant
once a clock reading reaches it. -/
theorem C7_infallible_and_propagates (act : ℚ → Except String Unit)
    (gaps clock : ℕ → ℚ) (endT : ℚ) (wfuel fuel gi i : ℕ) :
    (∀ e, runLoopA act gaps clock endT wfuel fuel gi i = some (Except.error e) →
      ∃ t, act t = Except.error e) ∧
    ((∀ t, act t = Except.ok ()) →
      runLoopA act gaps clock endT wfuel fuel gi i
        = Option.map Except.ok (runLoop gaps clock endT wfuel fuel gi i)) ∧
    (∀ target j0 m, j0 ≤ m → target ≤ clock m →
      ∃ j, waitUntil target clock j0 (m - j0) = some j) := by
  refine ⟨fun e h => runLoopA_error fuel gi i e h,
    fun ha => runLoopA_pure ha fuel gi i, ?_⟩
  intro target j0 m hle hcl
  have h' : target ≤ clock (j0 + (m - j0)) := by
    rw [Nat.add_sub_cancel' hle]
    exact hcl
  exact waitUntil_eventually (m - j0) j0 h'

/-- Witness for C7: with a never-panicking action the loop result carries
no error on the concrete streams. -/
theorem C7_infallible_and_propagates_witness :
    runLoopA pureAct cexGaps cexClock 10 5 5 0 1
      = Option.map Except.ok (runLoop cexGaps cexClock 10 5 5 0 1) :=
  (C7_infallible_and_propagates pureAct cexGaps cexClock 10 5 5 0 1).2.1
    (fun _ => rfl)

/-- C8: construction converts the rate in events per second to an intensity
lambda = rate / 1e9 in events per nanosecond and configures the
exponential sampler with exactly that parameter. -/
theorem C8_lambda_of_rate (rate : ℚ) (h1 : 0 < rate) (h2 : rate ≤ 10 ^ 9) :
    PoissonScheduler.new rate = Except.ok ⟨⟨rate / 10 ^ 9⟩, 0⟩ := by
  rw [new_eq, if_neg (not_lt.2 h2), if_pos ((lam_pos_iff rate).2 h1)]

/-- Witness for C8 at rate 100 events per second. -/
theorem C8_lambda_of_rate_witness :
    PoissonScheduler.new 100 = Except.ok ⟨⟨100 / 10 ^ 9⟩, 0⟩ :=
  C8_lambda_of_rate 100 (by norm_num) (by norm_num)

/-- C9: a target at or before the current reading makes wait_until return
immediately: the saturating duration_since yields a zero remaining span,
the poll condition is false at its first evaluation even with zero fuel,
and exactly one reading is consumed — no panic and no indefinite block. -/
theorem C9_past_target_immediate (target : ℚ) (clock : ℕ → ℚ) (i fuel : ℕ)
    (h : target ≤ clock i) :
    durationSince target (clock i) = 0 ∧
    waitUntil target clock i fuel = some (i + 1) := by
  have hd := durationSince_eq_zero h
  refine ⟨hd, ?_⟩
  cases fuel with
  | zero => simp [waitUntil, hd]
  | succ fuel => simp [waitUntil, hd]

/-- Witness for C9: a target three readings in the past. -/
theorem C9_past_target_immediate_witness :
    durationSince 3 (idClock 5) = 0 ∧ waitUntil 3 idClock 5 0 = some (5 + 1) :=
  C9_past_target_immediate 3 idClock 5 0 (by norm_num [idClock])

/-- C10: run mutates only the RNG state: the sampler configured at
construction, and hence the intensity lambda, is unchanged by every run
invocation — the RNG stream position alone advances, by exactly the number
of samples drawn — so repeated runs on the same scheduler sample gaps from
the same distribution. -/
theorem C10_run_preserves_sampler (s : PoissonScheduler)
    (gaps clock : ℕ → ℚ) (runtime : ℚ) (i wfuel fuel : ℕ) (ts : List ℚ)
    (s' : PoissonScheduler) (jf : ℕ)
    (h : PoissonScheduler.run s gaps clock runtime i wfuel fuel
      = some (ts, s', jf)) :
    s'.exp = s.exp ∧ s'.rngIdx = s.rngIdx + ts.length := by
  obtain ⟨hr, hexp⟩ := run_some h
  obtain ⟨h1, _, _⟩ := runLoop_struct fuel s.rngIdx (i + 1) ts s'.rngIdx jf hr
  exact ⟨hexp, h1⟩

/-- Witness for C10 on the concrete stalling-clock run. -/
theorem C10_run_preserves_sampler_witness :
    (⟨⟨1⟩, 2⟩ : PoissonScheduler).exp = (⟨⟨1⟩, 0⟩ : PoissonScheduler).exp ∧
    (⟨⟨1⟩, 2⟩ : PoissonScheduler).rngIdx
      = (⟨⟨1⟩, 0⟩ : PoissonScheduler).rngIdx + ([0, 0] : List ℚ).length :=
  C10_run_preserves_sampler ⟨⟨1⟩, 0⟩ cexGaps cexClock 10 0 5 5 [0, 0]
    ⟨⟨1⟩, 2⟩ 8 (by norm_num [PoissonScheduler.run, runLoop, waitUntil, cexClock, cexGaps,
      asU64, durationSince])

end PoissonSched
